import Mathlib

/-!
Verification of the metrics time-series subsystem of `raspi-openclaw-ops`
(`src/metricsDb.ts` and the sampler / `/metrics.json` parts of `src/server.ts`)
against its natural-language specification.

Modelling conventions:
* JavaScript numbers are modelled by `JsNum`: either a finite rational or one
  of the non-finite values `NaN`, `+Infinity`, `-Infinity`.  Timestamps, which
  the code only ever compares and floors, are modelled directly as rationals.
* A `number | null` field is `Option JsNum` (`null` is `none`).
* The two SQLite tables (`metrics_raw`, `metrics_1m`, each with an integer
  primary key and read back `ORDER BY ... ASC`) are modelled as lists of rows
  kept strictly sorted by their key; `INSERT OR REPLACE` is key-ordered
  insertion with replacement, `BETWEEN`/`DELETE ... WHERE` are filters.
-/

/-- A JavaScript number: a finite rational or one of the non-finite values. -/
inductive JsNum where
  | finite (q : ℚ)
  | nan
  | posInf
  | negInf
deriving DecidableEq, Repr

/-- `Number.isFinite`. -/
def JsNum.isFinite : JsNum → Bool
  | .finite _ => true
  | _ => false

/-- The finite rational carried by a `JsNum`, if any. -/
def JsNum.finitePart : JsNum → Option ℚ
  | .finite q => some q
  | _ => none

/-- Row of the `metrics_raw` table (`MetricsRawRow` in `src/metricsDb.ts`). -/
structure MetricsRawRow where
  timeMs : ℚ
  cpuUsagePctInstant : Option JsNum
  cpuUsagePctAvg10s : Option JsNum
  cpuTempC : Option JsNum
  diskUsedPct : Option JsNum
  memUsedPct : JsNum
deriving DecidableEq, Repr

/-- Row of the `metrics_1m` table (`Metrics1mRow` in `src/metricsDb.ts`). -/
structure Metrics1mRow where
  bucketStartMs : ℚ
  cpuUsagePctAvg10s : Option JsNum
  cpuTempC : Option JsNum
  diskUsedPct : Option JsNum
  memUsedPct : JsNum
deriving DecidableEq, Repr

/-- The inner `avg` helper of `compute1mRollup`: keep the values that are
numbers and `Number.isFinite`, return `null` if none remain, otherwise the sum
divided by the count (`vals.reduce((a, b) => a + b, 0) / vals.length`). -/
def avg (xs : List (Option JsNum)) : Option JsNum :=
  let vals := xs.filterMap (fun x => match x with
    | some (JsNum.finite q) => some q
    | _ => none)
  if vals.length = 0 then none
  else some (JsNum.finite ((vals.foldl (· + ·) 0) / (vals.length : ℚ)))

/-- `compute1mRollup` from `src/metricsDb.ts`: average each field over the
non-null (and finite) values of the raw rows in the bucket; `memUsedPct`
falls back to `0` when `avg` yields `null`. -/
def compute1mRollup (bucketStartMs : ℚ) (raws : List MetricsRawRow) : Metrics1mRow :=
  { bucketStartMs := bucketStartMs
    cpuUsagePctAvg10s := avg (raws.map (fun r => r.cpuUsagePctAvg10s))
    cpuTempC := avg (raws.map (fun r => r.cpuTempC))
    diskUsedPct := avg (raws.map (fun r => r.diskUsedPct))
    memUsedPct := (avg (raws.map (fun r => some r.memUsedPct))).getD (JsNum.finite 0) }

/-- `floorToMinute` from `src/metricsDb.ts`: `Math.floor(ms / 60_000) * 60_000`. -/
def floorToMinute (ms : ℚ) : ℚ :=
  (⌊ms / 60000⌋ : ℚ) * 60000

/-- A raw row all of whose numeric values are finite — the shape the data
model of the spec (§3) describes: each field a real number or absent. -/
structure FiniteRawRow where
  timeMs : ℚ
  cpuUsagePctInstant : Option ℚ
  cpuUsagePctAvg10s : Option ℚ
  cpuTempC : Option ℚ
  diskUsedPct : Option ℚ
  memUsedPct : ℚ
deriving DecidableEq, Repr

/-- Embed a finite-valued raw row as a `MetricsRawRow`. -/
def FiniteRawRow.toRaw (r : FiniteRawRow) : MetricsRawRow :=
  { timeMs := r.timeMs
    cpuUsagePctInstant := r.cpuUsagePctInstant.map JsNum.finite
    cpuUsagePctAvg10s := r.cpuUsagePctAvg10s.map JsNum.finite
    cpuTempC := r.cpuTempC.map JsNum.finite
    diskUsedPct := r.diskUsedPct.map JsNum.finite
    memUsedPct := JsNum.finite r.memUsedPct }

/-- Arithmetic mean of a list of rationals, `none` on the empty list. -/
def meanOpt (vs : List ℚ) : Option ℚ :=
  if vs = [] then none else some (vs.sum / (vs.length : ℚ))

theorem foldl_add_eq_sum (l : List ℚ) : ∀ a : ℚ, l.foldl (· + ·) a = a + l.sum := by
  induction l with
  | nil => intro a; simp
  | cons x xs ih =>
      intro a
      simp only [List.foldl_cons, List.sum_cons, ih (a + x)]
      ring

theorem avg_map_finite (os : List (Option ℚ)) :
    avg (os.map (fun o => o.map JsNum.finite)) = (meanOpt (os.filterMap id)).map JsNum.finite := by
  unfold avg meanOpt
  have hfm : (os.map (fun o => o.map JsNum.finite)).filterMap
      (fun x => match x with
        | some (JsNum.finite q) => some q
        | _ => none) = os.filterMap id := by
    rw [List.filterMap_map]
    apply List.filterMap_congr
    intro o _
    cases o <;> rfl
  rw [hfm]
  by_cases h : os.filterMap id = []
  · simp [h]
  · have hlen : (os.filterMap id).length ≠ 0 := by
      simpa [List.length_eq_zero] using h
    simp only [hlen, if_false, h, foldl_add_eq_sum, zero_add, Option.map_some]
    rfl

theorem floorToMinute_le (ms : ℚ) : floorToMinute ms ≤ ms := by
  unfold floorToMinute
  have h60 : (0 : ℚ) < 60000 := by norm_num
  have h := Int.floor_le (ms / 60000)
  calc (⌊ms / 60000⌋ : ℚ) * 60000 ≤ (ms / 60000) * 60000 := by
        exact mul_le_mul_of_nonneg_right h (le_of_lt h60)
    _ = ms := by field_simp

/-- C8: `floorToMinute` is idempotent, and `floorToMinute ms ≤ ms < floorToMinute ms + 60000`. -/
theorem floorToMinute_idempotent_and_bounds (ms : ℚ) :
    floorToMinute (floorToMinute ms) = floorToMinute ms ∧
    floorToMinute ms ≤ ms ∧ ms < floorToMinute ms + 60000 := by
  have h60 : (0 : ℚ) < 60000 := by norm_num
  refine ⟨?_, floorToMinute_le ms, ?_⟩
  · unfold floorToMinute
    have : ((⌊ms / 60000⌋ : ℚ) * 60000) / 60000 = (⌊ms / 60000⌋ : ℚ) := by
      field_simp
    rw [this, Int.floor_intCast]
  · unfold floorToMinute
    have h := Int.lt_floor_add_one (ms / 60000)
    have := mul_lt_mul_of_pos_right h h60
    calc ms = (ms / 60000) * 60000 := by field_simp
      _ < ((⌊ms / 60000⌋ : ℚ) + 1) * 60000 := by
          exact mul_lt_mul_of_pos_right h h60
      _ = (⌊ms / 60000⌋ : ℚ) * 60000 + 60000 := by ring

theorem filterMap_map_toRaw_avg (rows : List FiniteRawRow) (f : FiniteRawRow → Option ℚ)
    (g : MetricsRawRow → Option JsNum)
    (hfg : ∀ r : FiniteRawRow, g r.toRaw = (f r).map JsNum.finite) :
    avg ((rows.map FiniteRawRow.toRaw).map g) = (meanOpt (rows.filterMap f)).map JsNum.finite := by
  have h1 : (rows.map FiniteRawRow.toRaw).map g
      = (rows.map f).map (fun o => o.map JsNum.finite) := by
    simp only [List.map_map]
    apply List.map_congr_left
    intro r _
    exact hfg r
  rw [h1, avg_map_finite]
  congr 1
  rw [List.filterMap_map]
  rfl

/-- C1: for every bucket start and every list of (finite-valued) raw rows,
`compute1mRollup` returns the bucket start unchanged; each of
`cpuUsagePctAvg10s`, `cpuTempC`, `diskUsedPct` is the arithmetic mean of the
non-absent values of that field across the rows (absent when no row
contributes a value); and `memUsedPct` is the arithmetic mean of all the rows'
`memUsedPct` values, defaulting to `0` when the row list contributes none. -/
theorem compute1mRollup_fieldwise_mean (b : ℚ) (rows : List FiniteRawRow) :
    (compute1mRollup b (rows.map FiniteRawRow.toRaw)).bucketStartMs = b ∧
    (compute1mRollup b (rows.map FiniteRawRow.toRaw)).cpuUsagePctAvg10s
      = (meanOpt (rows.filterMap (fun r => r.cpuUsagePctAvg10s))).map JsNum.finite ∧
    (compute1mRollup b (rows.map FiniteRawRow.toRaw)).cpuTempC
      = (meanOpt (rows.filterMap (fun r => r.cpuTempC))).map JsNum.finite ∧
    (compute1mRollup b (rows.map FiniteRawRow.toRaw)).diskUsedPct
      = (meanOpt (rows.filterMap (fun r => r.diskUsedPct))).map JsNum.finite ∧
    (compute1mRollup b (rows.map FiniteRawRow.toRaw)).memUsedPct
      = JsNum.finite ((meanOpt (rows.map (fun r => r.memUsedPct))).getD 0) := by
  refine ⟨rfl, ?_, ?_, ?_, ?_⟩
  · exact filterMap_map_toRaw_avg rows _ _ (fun r => rfl)
  · exact filterMap_map_toRaw_avg rows _ _ (fun r => rfl)
  · exact filterMap_map_toRaw_avg rows _ _ (fun r => rfl)
  · have h2 : rows.filterMap (fun r => some r.memUsedPct) = rows.map (fun r => r.memUsedPct) := by
      induction rows with
      | nil => rfl
      | cons x xs ih => simp [List.filterMap_cons, ih]
    have h := filterMap_map_toRaw_avg rows (fun r => some r.memUsedPct)
      (fun r => some r.memUsedPct) (fun r => rfl)
    show (avg ((rows.map FiniteRawRow.toRaw).map (fun r => some r.memUsedPct))).getD (JsNum.finite 0)
      = JsNum.finite ((meanOpt (rows.map (fun r => r.memUsedPct))).getD 0)
    rw [h, h2]
    cases meanOpt (rows.map (fun r => r.memUsedPct)) <;> rfl

/-- Replace a non-finite value by `null`, keeping finite values and `null`. -/
def scrubVal (o : Option JsNum) : Option JsNum :=
  match o with
  | some v => if v.isFinite then some v else none
  | none => none

/-- Replace every non-finite optional field value of a raw row by `null`
(`memUsedPct` is a required field and is kept as is). -/
def scrubRowOpt (r : MetricsRawRow) : MetricsRawRow :=
  { r with
    cpuUsagePctInstant := scrubVal r.cpuUsagePctInstant
    cpuUsagePctAvg10s := scrubVal r.cpuUsagePctAvg10s
    cpuTempC := scrubVal r.cpuTempC
    diskUsedPct := scrubVal r.diskUsedPct }

theorem avg_scrubVal (xs : List (Option JsNum)) : avg (xs.map scrubVal) = avg xs := by
  unfold avg
  have h : (xs.map scrubVal).filterMap
      (fun x => match x with
        | some (JsNum.finite q) => some q
        | _ => none)
      = xs.filterMap
      (fun x => match x with
        | some (JsNum.finite q) => some q
        | _ => none) := by
    rw [List.filterMap_map]
    apply List.filterMap_congr
    intro o _
    match o with
    | none => rfl
    | some (JsNum.finite q) => rfl
    | some JsNum.nan => rfl
    | some JsNum.posInf => rfl
    | some JsNum.negInf => rfl
  rw [h]

theorem avg_eq_none (xs : List (Option JsNum))
    (h : ∀ x ∈ xs, (match x with
      | some (JsNum.finite q) => some q
      | _ => (none : Option ℚ)) = none) : avg xs = none := by
  unfold avg
  have hnil : xs.filterMap (fun x => match x with
      | some (JsNum.finite q) => some q
      | _ => none) = [] := by
    rw [List.filterMap_eq_nil_iff]
    exact h
  rw [hnil]
  rfl

/-- C10: `compute1mRollup` treats non-finite numeric values (`NaN`,
`+Infinity`, `-Infinity`) exactly as if they were absent: the inner `avg`
is unchanged by replacing non-finite entries with `null`, the whole rollup is
unchanged by scrubbing non-finite optional field values to `null`, and a
bucket whose rows all carry non-finite `memUsedPct` values rolls up to
`memUsedPct = 0`. -/
theorem compute1mRollup_nonfinite_as_absent :
    (∀ xs : List (Option JsNum), avg (xs.map scrubVal) = avg xs) ∧
    (∀ (b : ℚ) (raws : List MetricsRawRow),
      compute1mRollup b (raws.map scrubRowOpt) = compute1mRollup b raws) ∧
    (∀ (b : ℚ) (raws : List MetricsRawRow),
      (∀ r ∈ raws, r.memUsedPct.isFinite = false) →
      (compute1mRollup b raws).memUsedPct = JsNum.finite 0) := by
  refine ⟨avg_scrubVal, ?_, ?_⟩
  · intro b raws
    unfold compute1mRollup
    have hfield : ∀ g gs : MetricsRawRow → Option JsNum,
        (∀ r, gs (scrubRowOpt r) = scrubVal (g r)) →
        avg ((raws.map scrubRowOpt).map gs) = avg (raws.map g) := by
      intro g gs hg
      have : (raws.map scrubRowOpt).map gs = (raws.map g).map scrubVal := by
        simp only [List.map_map]
        apply List.map_congr_left
        intro r _
        exact hg r
      rw [this, avg_scrubVal]
    have hmem : (raws.map scrubRowOpt).map (fun r => some r.memUsedPct)
        = raws.map (fun r => some r.memUsedPct) := by
      simp only [List.map_map]
      rfl
    simp only [Metrics1mRow.mk.injEq]
    exact ⟨trivial, hfield _ _ (fun r => rfl), hfield _ _ (fun r => rfl),
      hfield _ _ (fun r => rfl), by rw [hmem]⟩
  · intro b raws hall
    show (avg (raws.map (fun r => some r.memUsedPct))).getD (JsNum.finite 0) = JsNum.finite 0
    rw [avg_eq_none]
    · rfl
    · intro x hx
      obtain ⟨r, hr, hrx⟩ := List.mem_map.mp hx
      have hfin := hall r hr
      subst hrx
      match hm : r.memUsedPct with
      | JsNum.finite q => rw [hm] at hfin; simp [JsNum.isFinite] at hfin
      | JsNum.nan => rfl
      | JsNum.posInf => rfl
      | JsNum.negInf => rfl

/-- Witness for C10 at a concrete input: a single raw row whose `memUsedPct`
is `NaN` rolls up to `memUsedPct = 0`. -/
theorem compute1mRollup_nonfinite_as_absent_witness :
    (compute1mRollup 0 [⟨0, none, none, none, none, JsNum.nan⟩]).memUsedPct = JsNum.finite 0 :=
  compute1mRollup_nonfinite_as_absent.2.2 0 [⟨0, none, none, none, none, JsNum.nan⟩]
    (by intro r hr; simp at hr; rw [hr]; rfl)

section KeyedTable

variable {α : Type} (key : α → ℚ)

/-- `INSERT OR REPLACE` into a table with primary key `key`, modelled as
key-ordered insertion (with replacement on key collision) into a list kept
strictly ascending by `key`. -/
def tblInsert : List α → α → List α
  | [], r => [r]
  | x :: xs, r =>
    if key r < key x then r :: x :: xs
    else if key r = key x then r :: xs
    else x :: tblInsert xs r

/-- Insert a batch of rows one by one (one transaction in the source). -/
def tblInsertMany (s : List α) (rows : List α) : List α :=
  rows.foldl (tblInsert key) s

/-- `SELECT ... WHERE key BETWEEN lo AND hi ORDER BY key ASC`. -/
def tblSelectRange (s : List α) (lo hi : ℚ) : List α :=
  s.filter (fun r => decide (lo ≤ key r) && decide (key r ≤ hi))

/-- `DELETE FROM ... WHERE key < cutoff`, returning the surviving table and
the number of deleted rows (`.changes`). -/
def tblPrune (s : List α) (cutoff : ℚ) : List α × ℕ :=
  (s.filter (fun r => !decide (key r < cutoff)),
   s.countP (fun r => decide (key r < cutoff)))

/-- The table invariant: rows strictly ascending in the primary key. -/
def TblSorted (s : List α) : Prop :=
  s.Pairwise (fun a b => key a < key b)

theorem tblInsert_nil (r : α) : tblInsert key [] r = [r] := rfl

theorem tblInsert_cons (x : α) (xs : List α) (r : α) :
    tblInsert key (x :: xs) r =
      if key r < key x then r :: x :: xs
      else if key r = key x then r :: xs
      else x :: tblInsert key xs r := rfl

theorem mem_tblInsert (s : List α) (r y : α) :
    y ∈ tblInsert key s r → y = r ∨ y ∈ s := by
  induction s with
  | nil =>
      intro h
      rw [tblInsert_nil, List.mem_singleton] at h
      exact Or.inl h
  | cons x xs ih =>
      intro h
      rw [tblInsert_cons] at h
      by_cases h1 : key r < key x
      · rw [if_pos h1, List.mem_cons] at h
        rcases h with h | h
        · exact Or.inl h
        · exact Or.inr h
      · by_cases h2 : key r = key x
        · rw [if_neg h1, if_pos h2, List.mem_cons] at h
          rcases h with h | h
          · exact Or.inl h
          · exact Or.inr (List.mem_cons_of_mem _ h)
        · rw [if_neg h1, if_neg h2, List.mem_cons] at h
          rcases h with h | h
          · exact Or.inr (h ▸ List.mem_cons_self x xs)
          · rcases ih h with h | h
            · exact Or.inl h
            · exact Or.inr (List.mem_cons_of_mem _ h)

theorem self_mem_tblInsert (s : List α) (r : α) : r ∈ tblInsert key s r := by
  induction s with
  | nil => rw [tblInsert_nil]; exact List.mem_singleton_self r
  | cons x xs ih =>
      rw [tblInsert_cons]
      by_cases h1 : key r < key x
      · rw [if_pos h1]; exact List.mem_cons_self _ _
      · by_cases h2 : key r = key x
        · rw [if_neg h1, if_pos h2]; exact List.mem_cons_self _ _
        · rw [if_neg h1, if_neg h2]; exact List.mem_cons_of_mem _ ih

theorem tblInsert_sorted {s : List α} (hs : TblSorted key s) (r : α) :
    TblSorted key (tblInsert key s r) := by
  induction s with
  | nil => rw [tblInsert_nil]; exact List.pairwise_singleton _ r
  | cons x xs ih =>
      have hx : ∀ y ∈ xs, key x < key y := (List.pairwise_cons.mp hs).1
      have hxs : TblSorted key xs := (List.pairwise_cons.mp hs).2
      rw [tblInsert_cons]
      by_cases h1 : key r < key x
      · rw [if_pos h1]
        refine List.pairwise_cons.mpr ⟨?_, hs⟩
        intro y hy
        rw [List.mem_cons] at hy
        rcases hy with hy | hy
        · exact hy ▸ h1
        · exact lt_trans h1 (hx y hy)
      · by_cases h2 : key r = key x
        · rw [if_neg h1, if_pos h2]
          refine List.pairwise_cons.mpr ⟨?_, hxs⟩
          intro y hy
          exact h2 ▸ hx y hy
        · rw [if_neg h1, if_neg h2]
          refine List.pairwise_cons.mpr ⟨?_, ih hxs⟩
          intro y hy
          rcases mem_tblInsert key xs r y hy with hy | hy
          · subst hy
            exact lt_of_le_of_ne (le_of_not_lt h1) (fun hc => h2 hc.symm)
          · exact hx y hy

theorem tblInsert_collapse {r1 r2 : α} (hk : key r1 = key r2) (s : List α) :
    tblInsert key (tblInsert key s r1) r2 = tblInsert key s r2 := by
  have hirr : ¬ key r2 < key r1 := by rw [hk]; exact lt_irrefl _
  have heq : key r2 = key r1 := hk.symm
  induction s with
  | nil =>
      rw [tblInsert_nil, tblInsert_nil, tblInsert_cons, if_neg hirr, if_pos heq]
  | cons x xs ih =>
      by_cases h1 : key r1 < key x
      · have h1' : key r2 < key x := hk ▸ h1
        rw [tblInsert_cons, if_pos h1, tblInsert_cons, if_neg hirr, if_pos heq,
          tblInsert_cons, if_pos h1']
      · by_cases h2 : key r1 = key x
        · have h1' : ¬ key r2 < key x := by rw [← hk]; exact h1
          have h2' : key r2 = key x := hk ▸ h2
          rw [tblInsert_cons, if_neg h1, if_pos h2, tblInsert_cons, if_neg hirr,
            if_pos heq, tblInsert_cons, if_neg h1', if_pos h2']
        · have h1' : ¬ key r2 < key x := by rw [← hk]; exact h1
          have h2' : ¬ key r2 = key x := by rw [← hk]; exact h2
          rw [tblInsert_cons, if_neg h1, if_neg h2, tblInsert_cons, if_neg h1',
            if_neg h2', tblInsert_cons, if_neg h1', if_neg h2', ih]

theorem tblInsert_countP_key {s : List α} (hs : TblSorted key s) (r : α) :
    (tblInsert key s r).countP (fun x => decide (key x = key r)) = 1 := by
  induction s with
  | nil => rw [tblInsert_nil]; simp [List.countP_cons]
  | cons x xs ih =>
      have hx : ∀ y ∈ xs, key x < key y := (List.pairwise_cons.mp hs).1
      have hxs : TblSorted key xs := (List.pairwise_cons.mp hs).2
      rw [tblInsert_cons]
      by_cases h1 : key r < key x
      · rw [if_pos h1]
        have hzero : (x :: xs).countP (fun y => decide (key y = key r)) = 0 := by
          rw [List.countP_eq_zero]
          intro y hy
          rw [List.mem_cons] at hy
          rcases hy with hy | hy
          · subst hy
            simp only [decide_eq_true_eq]
            exact fun hc => absurd (hc ▸ h1) (lt_irrefl _)
          · simp only [decide_eq_true_eq]
            intro hc
            exact absurd (hc ▸ lt_trans h1 (hx y hy)) (lt_irrefl _)
        rw [List.countP_cons, hzero]
        simp
      · by_cases h2 : key r = key x
        · rw [if_neg h1, if_pos h2]
          have hzero : xs.countP (fun y => decide (key y = key r)) = 0 := by
            rw [List.countP_eq_zero]
            intro y hy
            simp only [decide_eq_true_eq]
            intro hc
            rw [h2] at hc
            exact absurd (hc ▸ hx y hy) (lt_irrefl _)
          rw [List.countP_cons, hzero]
          simp
        · rw [if_neg h1, if_neg h2]
          rw [List.countP_cons, ih hxs]
          simp only [decide_eq_true_eq]
          have : ¬ key x = key r := fun hc => h2 hc.symm
          simp [this]

theorem tblInsert_perm_of_fresh {s : List α} {r : α}
    (h : ∀ x ∈ s, key x ≠ key r) : (tblInsert key s r).Perm (r :: s) := by
  induction s with
  | nil => rw [tblInsert_nil]
  | cons x xs ih =>
      rw [tblInsert_cons]
      by_cases h1 : key r < key x
      · rw [if_pos h1]
      · by_cases h2 : key r = key x
        · exact absurd h2.symm (h x (List.mem_cons_self x xs))
        · rw [if_neg h1, if_neg h2]
          have htail := ih (fun y hy => h y (List.mem_cons_of_mem _ hy))
          exact (htail.cons x).trans (List.Perm.swap r x xs)

theorem tblInsertMany_sorted {s : List α} (hs : TblSorted key s) (rows : List α) :
    TblSorted key (tblInsertMany key s rows) := by
  induction rows generalizing s with
  | nil => exact hs
  | cons r rest ih => exact ih (tblInsert_sorted key hs r)

theorem tblInsertMany_perm_of_fresh {rows : List α}
    (hd : rows.Pairwise (fun a b => key a ≠ key b)) :
    ∀ s : List α, (∀ x ∈ s, ∀ y ∈ rows, key x ≠ key y) →
    (tblInsertMany key s rows).Perm (s ++ rows) := by
  induction rows with
  | nil => intro s _; simp [tblInsertMany]
  | cons r rest ih =>
      intro s hfresh
      have hstep : (tblInsert key s r).Perm (r :: s) :=
        tblInsert_perm_of_fresh key (fun x hx => hfresh x hx r (List.mem_cons_self r rest))
      have hrest : ∀ x ∈ tblInsert key s r, ∀ y ∈ rest, key x ≠ key y := by
        intro x hx y hy
        rcases mem_tblInsert key s r x hx with hx | hx
        · subst hx
          exact (List.pairwise_cons.mp hd).1 y hy
        · exact hfresh x hx y (List.mem_cons_of_mem _ hy)
      have hih := ih (List.pairwise_cons.mp hd).2 (tblInsert key s r) hrest
      have hmid : ((r :: s) ++ rest).Perm (s ++ r :: rest) := by
        simpa using (@List.perm_middle α r s rest).symm
      exact hih.trans ((hstep.append_right rest).trans hmid)

theorem mem_tblSelectRange {s : List α} {lo hi : ℚ} {r : α} :
    r ∈ tblSelectRange key s lo hi ↔ r ∈ s ∧ lo ≤ key r ∧ key r ≤ hi := by
  unfold tblSelectRange
  rw [List.mem_filter]
  simp

theorem tblSelectRange_sorted {s : List α} (hs : TblSorted key s) (lo hi : ℚ) :
    TblSorted key (tblSelectRange key s lo hi) :=
  List.Pairwise.filter _ hs

end KeyedTable

theorem tblPrune_mem {α : Type} (key : α → ℚ) (s : List α) (c : ℚ) (r : α) :
    r ∈ (tblPrune key s c).1 ↔ r ∈ s ∧ ¬ key r < c := by
  unfold tblPrune
  rw [List.mem_filter]
  simp

theorem tblPrune_sublist {α : Type} (key : α → ℚ) (s : List α) (c : ℚ) :
    (tblPrune key s c).1.Sublist s :=
  List.filter_sublist s

theorem tblPrune_sorted {α : Type} (key : α → ℚ) {s : List α} (hs : TblSorted key s) (c : ℚ) :
    TblSorted key (tblPrune key s c).1 :=
  List.Pairwise.filter _ hs

theorem tblPrune_count {α : Type} (key : α → ℚ) (s : List α) (c : ℚ) :
    (tblPrune key s c).2 + (tblPrune key s c).1.length = s.length := by
  unfold tblPrune
  rw [← List.countP_eq_length_filter]
  have h2 : (fun a => !decide (key a < c)) = (fun a => decide (¬ (decide (key a < c) = true))) := by
    funext a
    by_cases hc : key a < c <;> simp [hc]
  rw [h2]
  exact (List.length_eq_countP_add_countP (fun r => decide (key r < c)) s).symm

/-- `insertRawRow` of `src/metricsDb.ts`: upsert one row into `metrics_raw`
keyed by `time_ms`. -/
def insertRaw (s : List MetricsRawRow) (r : MetricsRawRow) : List MetricsRawRow :=
  tblInsert MetricsRawRow.timeMs s r

/-- `insertRawMany`: the per-batch transaction, upserting each row in order. -/
def insertRawMany (s : List MetricsRawRow) (rows : List MetricsRawRow) : List MetricsRawRow :=
  tblInsertMany MetricsRawRow.timeMs s rows

/-- `selectRawRange(fromMs, toMs)`: `WHERE time_ms BETWEEN ? AND ? ORDER BY time_ms ASC`. -/
def selectRawRange (s : List MetricsRawRow) (fromMs toMs : ℚ) : List MetricsRawRow :=
  tblSelectRange MetricsRawRow.timeMs s fromMs toMs

/-- `pruneRaw(olderThanMs)`: `DELETE FROM metrics_raw WHERE time_ms < ?`,
returning the surviving table and `.changes`. -/
def pruneRaw (s : List MetricsRawRow) (olderThanMs : ℚ) : List MetricsRawRow × ℕ :=
  tblPrune MetricsRawRow.timeMs s olderThanMs

/-- `insert1mRow`: upsert one row into `metrics_1m` keyed by `bucket_start_ms`. -/
def insert1mRow (s : List Metrics1mRow) (r : Metrics1mRow) : List Metrics1mRow :=
  tblInsert Metrics1mRow.bucketStartMs s r

/-- `select1mRange(fromMs, toMs)`: `WHERE bucket_start_ms BETWEEN ? AND ?`. -/
def select1mRange (s : List Metrics1mRow) (fromMs toMs : ℚ) : List Metrics1mRow :=
  tblSelectRange Metrics1mRow.bucketStartMs s fromMs toMs

/-- `prune1m(olderThanMs)`: `DELETE FROM metrics_1m WHERE bucket_start_ms < ?`. -/
def prune1m (s : List Metrics1mRow) (olderThanMs : ℚ) : List Metrics1mRow × ℕ :=
  tblPrune Metrics1mRow.bucketStartMs s olderThanMs

/-- Invariant of the raw tier: rows strictly ascending in `timeMs`. -/
def RawSorted (s : List MetricsRawRow) : Prop :=
  TblSorted MetricsRawRow.timeMs s

/-- Invariant of the rollup tier: rows strictly ascending in `bucketStartMs`. -/
def M1Sorted (s : List Metrics1mRow) : Prop :=
  TblSorted Metrics1mRow.bucketStartMs s

/-- C4: raw-tier insert is an upsert keyed by `timeMs`: inserting two rows with
the same `timeMs` (in one batch or in successive calls) is the same as
inserting only the later one, the store then holds exactly one row with that
`timeMs`, namely the later payload, and re-inserting an identical row leaves
the store unchanged. -/
theorem insertRaw_upsert_semantics (s : List MetricsRawRow) (r1 r2 : MetricsRawRow)
    (hs : RawSorted s) (hk : r1.timeMs = r2.timeMs) :
    insertRawMany s [r1, r2] = insertRaw s r2 ∧
    insertRaw (insertRaw s r1) r2 = insertRaw s r2 ∧
    (insertRaw s r2).countP (fun x => decide (x.timeMs = r2.timeMs)) = 1 ∧
    r2 ∈ insertRaw s r2 ∧
    insertRaw (insertRaw s r2) r2 = insertRaw s r2 := by
  refine ⟨?_, ?_, ?_, ?_, ?_⟩
  · exact tblInsert_collapse MetricsRawRow.timeMs hk s
  · exact tblInsert_collapse MetricsRawRow.timeMs hk s
  · exact tblInsert_countP_key MetricsRawRow.timeMs hs r2
  · exact self_mem_tblInsert MetricsRawRow.timeMs s r2
  · exact tblInsert_collapse MetricsRawRow.timeMs rfl s

/-- Witness for C4: on the empty store, inserting two rows with `timeMs = 1000`
and different payloads (batched) equals inserting only the second. -/
theorem insertRaw_upsert_semantics_witness :
    insertRawMany [] [⟨1000, none, none, none, none, JsNum.finite 5⟩,
        ⟨1000, none, none, none, none, JsNum.finite 50⟩]
      = insertRaw [] ⟨1000, none, none, none, none, JsNum.finite 50⟩ ∧
    (insertRaw [] (⟨1000, none, none, none, none, JsNum.finite 50⟩ : MetricsRawRow)).countP
        (fun x => decide (x.timeMs = (1000 : ℚ))) = 1 :=
  ⟨(insertRaw_upsert_semantics [] ⟨1000, none, none, none, none, JsNum.finite 5⟩
      ⟨1000, none, none, none, none, JsNum.finite 50⟩ List.Pairwise.nil rfl).1,
   (insertRaw_upsert_semantics [] ⟨1000, none, none, none, none, JsNum.finite 5⟩
      ⟨1000, none, none, none, none, JsNum.finite 50⟩ List.Pairwise.nil rfl).2.2.1⟩

/-- C5: `selectRawRange(fromMs, toMs)` returns exactly the raw rows with
`fromMs ≤ timeMs ≤ toMs` (inclusive on both ends), ascending in `timeMs`;
in particular, after inserting rows with pairwise distinct timestamps into an
empty store, selecting a covering range returns exactly those rows (as a
permutation, sorted ascending, all fields as inserted). -/
theorem selectRawRange_spec (s : List MetricsRawRow) (fromMs toMs : ℚ)
    (hs : RawSorted s) (hft : fromMs ≤ toMs) :
    (∀ r : MetricsRawRow, r ∈ selectRawRange s fromMs toMs ↔
        r ∈ s ∧ fromMs ≤ r.timeMs ∧ r.timeMs ≤ toMs) ∧
    RawSorted (selectRawRange s fromMs toMs) ∧
    (∀ rows : List MetricsRawRow, rows.Pairwise (fun a b => a.timeMs ≠ b.timeMs) →
      (∀ r ∈ rows, fromMs ≤ r.timeMs ∧ r.timeMs ≤ toMs) →
      (selectRawRange (insertRawMany [] rows) fromMs toMs).Perm rows ∧
      RawSorted (selectRawRange (insertRawMany [] rows) fromMs toMs)) := by
  refine ⟨fun r => mem_tblSelectRange MetricsRawRow.timeMs,
    tblSelectRange_sorted MetricsRawRow.timeMs hs fromMs toMs, ?_⟩
  intro rows hdist hcov
  have hsorted : RawSorted (insertRawMany [] rows) :=
    tblInsertMany_sorted MetricsRawRow.timeMs List.Pairwise.nil rows
  have hperm : (insertRawMany [] rows).Perm rows := by
    have h := tblInsertMany_perm_of_fresh MetricsRawRow.timeMs hdist []
      (by intro x hx; cases hx)
    simpa using h
  have hall : ∀ r ∈ insertRawMany [] rows,
      (decide (fromMs ≤ r.timeMs) && decide (r.timeMs ≤ toMs)) = true := by
    intro r hr
    have hrr := hperm.mem_iff.mp hr
    have hb := hcov r hrr
    simp [hb.1, hb.2]
  have hfe : selectRawRange (insertRawMany [] rows) fromMs toMs = insertRawMany [] rows := by
    show (insertRawMany [] rows).filter _ = insertRawMany [] rows
    exact List.filter_eq_self.mpr hall
  rw [hfe]
  exact ⟨hperm, hsorted⟩

/-- Witness for C5: inserting the two test rows at `timeMs = 1000, 2000` into
an empty store and selecting `[0, 10000]` yields exactly those rows. -/
theorem selectRawRange_spec_witness :
    (selectRawRange (insertRawMany []
        [⟨1000, some (JsNum.finite 1), some (JsNum.finite 2), some (JsNum.finite 3),
            some (JsNum.finite 4), JsNum.finite 5⟩,
         ⟨2000, some (JsNum.finite 10), some (JsNum.finite 20), some (JsNum.finite 30),
            some (JsNum.finite 40), JsNum.finite 50⟩]) 0 10000).Perm
      [⟨1000, some (JsNum.finite 1), some (JsNum.finite 2), some (JsNum.finite 3),
          some (JsNum.finite 4), JsNum.finite 5⟩,
       ⟨2000, some (JsNum.finite 10), some (JsNum.finite 20), some (JsNum.finite 30),
          some (JsNum.finite 40), JsNum.finite 50⟩] :=
  ((selectRawRange_spec [] 0 10000 List.Pairwise.nil (by norm_num)).2.2
    [⟨1000, some (JsNum.finite 1), some (JsNum.finite 2), some (JsNum.finite 3),
        some (JsNum.finite 4), JsNum.finite 5⟩,
     ⟨2000, some (JsNum.finite 10), some (JsNum.finite 20), some (JsNum.finite 30),
        some (JsNum.finite 40), JsNum.finite 50⟩]
    (by constructor
        · intro b hb
          rw [List.mem_singleton] at hb
          subst hb
          norm_num
        · exact List.pairwise_singleton _ _)
    (by intro r hr
        rw [List.mem_cons, List.mem_singleton] at hr
        rcases hr with hr | hr <;> subst hr <;> constructor <;> norm_num)).1

/-- C6: `pruneRaw(cutoff)` (and likewise `prune1m`) deletes exactly the rows
whose key is strictly less than the cutoff, leaves every row with key at least
the cutoff unchanged (a sublist of the original, still sorted), and the
returned count plus the surviving length is the original length. -/
theorem pruneRaw_prune1m_spec (raw : List MetricsRawRow) (m1 : List Metrics1mRow)
    (cutoff : ℚ) (hraw : RawSorted raw) (hm1 : M1Sorted m1) :
    (∀ r : MetricsRawRow, r ∈ (pruneRaw raw cutoff).1 ↔ r ∈ raw ∧ ¬ r.timeMs < cutoff) ∧
    (pruneRaw raw cutoff).1.Sublist raw ∧
    RawSorted (pruneRaw raw cutoff).1 ∧
    (pruneRaw raw cutoff).2 + (pruneRaw raw cutoff).1.length = raw.length ∧
    (∀ r : Metrics1mRow, r ∈ (prune1m m1 cutoff).1 ↔ r ∈ m1 ∧ ¬ r.bucketStartMs < cutoff) ∧
    (prune1m m1 cutoff).1.Sublist m1 ∧
    M1Sorted (prune1m m1 cutoff).1 ∧
    (prune1m m1 cutoff).2 + (prune1m m1 cutoff).1.length = m1.length :=
  ⟨fun r => tblPrune_mem MetricsRawRow.timeMs raw cutoff r,
   tblPrune_sublist MetricsRawRow.timeMs raw cutoff,
   tblPrune_sorted MetricsRawRow.timeMs hraw cutoff,
   tblPrune_count MetricsRawRow.timeMs raw cutoff,
   fun r => tblPrune_mem Metrics1mRow.bucketStartMs m1 cutoff r,
   tblPrune_sublist Metrics1mRow.bucketStartMs m1 cutoff,
   tblPrune_sorted Metrics1mRow.bucketStartMs hm1 cutoff,
   tblPrune_count Metrics1mRow.bucketStartMs m1 cutoff⟩

/-- Witness for C6, the spec's example: rows at `1000` and `2000` with
`pruneRaw(1500)` — the row at `2000` survives and exactly 1 row is removed. -/
theorem pruneRaw_prune1m_spec_witness :
    (⟨2000, none, none, none, none, JsNum.finite 50⟩ : MetricsRawRow) ∈
      (pruneRaw [⟨1000, none, none, none, none, JsNum.finite 5⟩,
        ⟨2000, none, none, none, none, JsNum.finite 50⟩] 1500).1 ∧
    (pruneRaw [(⟨1000, none, none, none, none, JsNum.finite 5⟩ : MetricsRawRow),
        ⟨2000, none, none, none, none, JsNum.finite 50⟩] 1500).2
      + (pruneRaw [(⟨1000, none, none, none, none, JsNum.finite 5⟩ : MetricsRawRow),
        ⟨2000, none, none, none, none, JsNum.finite 50⟩] 1500).1.length = 2 := by
  have h := pruneRaw_prune1m_spec
    [⟨1000, none, none, none, none, JsNum.finite 5⟩,
     ⟨2000, none, none, none, none, JsNum.finite 50⟩] [] 1500
    (by constructor
        · intro b hb
          rw [List.mem_singleton] at hb
          subst hb
          norm_num
        · exact List.pairwise_singleton _ _)
    List.Pairwise.nil
  refine ⟨(h.1 _).mpr ⟨by simp, by norm_num⟩, ?_⟩
  simpa using h.2.2.2.1

/-- Configuration read from the environment in `src/server.ts`
(`METRICS_RAW_RETENTION_HOURS`, `METRICS_1M_RETENTION_DAYS`,
`METRICS_DEFAULT_RANGE_HOURS`). -/
structure MetricsConfig where
  rawRetentionHours : ℚ
  m1RetentionDays : ℚ
  defaultRangeHours : ℚ
deriving DecidableEq, Repr

/-- The sampler's module-level mutable state in `src/server.ts`:
`pendingRawBatch`, the two database tables, `lastRollupBucketStartMs`
and `lastPruneAtMs`. -/
structure SamplerState where
  pendingRawBatch : List MetricsRawRow
  rawTier : List MetricsRawRow
  m1Tier : List Metrics1mRow
  lastRollupBucketStartMs : Option ℚ
  lastPruneAtMs : Option ℚ
deriving DecidableEq, Repr

/-- `lastRollupBucketStartMs == null || bucket > lastRollupBucketStartMs`. -/
def rollupDue (bucket : ℚ) : Option ℚ → Bool
  | none => true
  | some last => decide (last < bucket)

/-- The rollup part of a sampler tick (`server.ts` lines 409–416): compute the
most recently fully-elapsed minute bucket `floorToMinute (now - 60000)`; if it
is strictly newer than the watermark (or no rollup has run yet), roll the
bucket's raw rows up into the rollup tier and advance the watermark. -/
def rollupStep (nowMs : ℚ) (st : SamplerState) : SamplerState :=
  let bucket := floorToMinute (nowMs - 60000)
  if rollupDue bucket st.lastRollupBucketStartMs then
    { st with
      m1Tier := insert1mRow st.m1Tier
        (compute1mRollup bucket (selectRawRange st.rawTier bucket (bucket + 60000 - 1)))
      lastRollupBucketStartMs := some bucket }
  else st

/-- `lastPruneAtMs == null || nowMs - lastPruneAtMs > 10 * 60_000`. -/
def pruneDue (nowMs : ℚ) : Option ℚ → Bool
  | none => true
  | some last => decide (nowMs - last > 10 * 60000)

/-- The prune part of a sampler tick (`server.ts` lines 419–424): at most
every 10 minutes, delete raw rows older than `max 1 rawRetentionHours` hours
and rollup rows older than `max 1 m1RetentionDays` days. -/
def pruneStep (cfg : MetricsConfig) (nowMs : ℚ) (st : SamplerState) : SamplerState :=
  if pruneDue nowMs st.lastPruneAtMs then
    { st with
      rawTier := (pruneRaw st.rawTier (nowMs - max 1 cfg.rawRetentionHours * 3600000)).1
      m1Tier := (prune1m st.m1Tier (nowMs - max 1 cfg.m1RetentionDays * 24 * 3600000)).1
      lastPruneAtMs := some nowMs }
  else st

/-- One tick of the sampling scheduler (`startMetricsSampler`, `server.ts`
lines 397–439): append the collected sample to the pending batch; if the
batch is non-empty, swap it out (`pendingRawBatch = []`) and flush it with
`insertRawMany`; then roll up and prune.  `flushOk = false` models
`insertRawMany` raising: the transaction leaves the store unchanged, the
exception aborts the rest of the tick body and is swallowed by the
`catch` at the tick boundary — but the batch variable was already
reassigned to `[]` before the failing call. -/
def tick (cfg : MetricsConfig) (flushOk : Bool) (nowMs : ℚ) (sample : MetricsRawRow)
    (st : SamplerState) : SamplerState :=
  let st1 := { st with pendingRawBatch := st.pendingRawBatch ++ [sample] }
  if st1.pendingRawBatch.isEmpty then
    pruneStep cfg nowMs (rollupStep nowMs st1)
  else if flushOk then
    pruneStep cfg nowMs (rollupStep nowMs
      { st1 with
        pendingRawBatch := []
        rawTier := insertRawMany st1.rawTier st1.pendingRawBatch })
  else
    { st1 with pendingRawBatch := [] }

/-- C7: on every tick, the rollup step targets `floorToMinute (now - 60000)`,
a bucket whose minute has fully elapsed (`bucket + 60000 ≤ now`); a bucket not
strictly newer than the watermark is not rolled up (state unchanged, so each
bucket is rolled up exactly once in steady state); and when the bucket is
strictly newer (or no rollup has happened yet) it is rolled up and the
watermark advances to it, strictly increasing. -/
theorem rollupStep_watermark_spec (nowMs : ℚ) (st : SamplerState) :
    (floorToMinute (nowMs - 60000) + 60000 ≤ nowMs) ∧
    (∀ last, st.lastRollupBucketStartMs = some last →
      floorToMinute (nowMs - 60000) ≤ last → rollupStep nowMs st = st) ∧
    (∀ last, st.lastRollupBucketStartMs = some last →
      last < floorToMinute (nowMs - 60000) →
      (rollupStep nowMs st).lastRollupBucketStartMs = some (floorToMinute (nowMs - 60000)) ∧
      (rollupStep nowMs st).m1Tier = insert1mRow st.m1Tier
        (compute1mRollup (floorToMinute (nowMs - 60000))
          (selectRawRange st.rawTier (floorToMinute (nowMs - 60000))
            (floorToMinute (nowMs - 60000) + 60000 - 1)))) ∧
    (st.lastRollupBucketStartMs = none →
      (rollupStep nowMs st).lastRollupBucketStartMs = some (floorToMinute (nowMs - 60000))) := by
  refine ⟨?_, ?_, ?_, ?_⟩
  · have h := floorToMinute_le (nowMs - 60000)
    linarith
  · intro last hlast hle
    unfold rollupStep
    rw [hlast]
    have hdue : rollupDue (floorToMinute (nowMs - 60000)) (some last) = false := by
      unfold rollupDue
      simpa using not_lt.mpr hle
    simp [hdue]
  · intro last hlast hlt
    unfold rollupStep
    rw [hlast]
    have hdue : rollupDue (floorToMinute (nowMs - 60000)) (some last) = true := by
      unfold rollupDue
      simpa using hlt
    simp [hdue]
  · intro hnone
    unfold rollupStep
    rw [hnone]
    rfl

/-- Witness for C7: at `now = 120000` the target bucket is `60000`; with
watermark `0` the rollup runs and advances the watermark to `60000`; with
watermark already `60000` the tick leaves the state unchanged. -/
theorem rollupStep_watermark_spec_witness :
    (rollupStep 120000 ⟨[], [], [], some 0, none⟩).lastRollupBucketStartMs = some 60000 ∧
    rollupStep 120000 ⟨[], [], [], some 60000, none⟩ = ⟨[], [], [], some 60000, none⟩ := by
  have hf : floorToMinute (120000 - 60000) = 60000 := by
    unfold floorToMinute
    norm_num
  constructor
  · have h := ((rollupStep_watermark_spec 120000 ⟨[], [], [], some 0, none⟩).2.2.1 0 rfl
      (by rw [hf]; norm_num)).1
    rw [hf] at h
    exact h
  · exact (rollupStep_watermark_spec 120000 ⟨[], [], [], some 60000, none⟩).2.1 60000 rfl
      (le_of_eq hf)

/-- C3 (amended): when flushing the pending batch fails, the batch was already
swapped out before the failing `insertRawMany` call, so the caught exception
leaves the pending batch empty and the tiers unchanged: the batch's samples
(including the tick's own sample) are discarded, not retried. -/
theorem tick_flush_failure_discards (cfg : MetricsConfig) (nowMs : ℚ)
    (sample : MetricsRawRow) (st : SamplerState) :
    (tick cfg false nowMs sample st).pendingRawBatch = [] ∧
    (tick cfg false nowMs sample st).rawTier = st.rawTier ∧
    (tick cfg false nowMs sample st).m1Tier = st.m1Tier ∧
    (tick cfg false nowMs sample st).lastRollupBucketStartMs = st.lastRollupBucketStartMs := by
  unfold tick
  have hne : (st.pendingRawBatch ++ [sample]).isEmpty = false := by
    cases st.pendingRawBatch <;> rfl
  simp [hne]

/-- Counterexample for C3: start with a pending batch holding a sample at
`timeMs = 0`; the flush of the next tick (at `now = 5000`, collecting a sample
at `5000`) fails.  After that tick the pending batch is empty — the two
samples are not retained — and after the following, successful tick (at
`now = 10000`) the raw tier holds only the new sample: the failed batch was
discarded, not retried. -/
theorem tick_flush_failure_counterexample :
    (tick ⟨24, 30, 6⟩ false 5000 ⟨5000, none, none, none, none, JsNum.finite 2⟩
        ⟨[⟨0, none, none, none, none, JsNum.finite 1⟩], [], [], none, none⟩).pendingRawBatch
      = [] ∧
    (⟨0, none, none, none, none, JsNum.finite 1⟩ : MetricsRawRow) ∉
      (tick ⟨24, 30, 6⟩ true 10000 ⟨10000, none, none, none, none, JsNum.finite 3⟩
        (tick ⟨24, 30, 6⟩ false 5000 ⟨5000, none, none, none, none, JsNum.finite 2⟩
          ⟨[⟨0, none, none, none, none, JsNum.finite 1⟩], [], [], none, none⟩)).rawTier ∧
    (⟨0, none, none, none, none, JsNum.finite 1⟩ : MetricsRawRow) ∉
      (tick ⟨24, 30, 6⟩ true 10000 ⟨10000, none, none, none, none, JsNum.finite 3⟩
        (tick ⟨24, 30, 6⟩ false 5000 ⟨5000, none, none, none, none, JsNum.finite 2⟩
          ⟨[⟨0, none, none, none, none, JsNum.finite 1⟩], [], [], none, none⟩)).pendingRawBatch := by
  have h1 : tick ⟨24, 30, 6⟩ false 5000 ⟨5000, none, none, none, none, JsNum.finite 2⟩
      ⟨[⟨0, none, none, none, none, JsNum.finite 1⟩], [], [], none, none⟩
      = ⟨[], [], [], none, none⟩ := rfl
  rw [h1]
  have hb : floorToMinute (10000 - 60000) = -60000 := by
    unfold floorToMinute
    norm_num
  have h2 : tick ⟨24, 30, 6⟩ true 10000 ⟨10000, none, none, none, none, JsNum.finite 3⟩
      ⟨[], [], [], none, none⟩
      = ⟨[], [⟨10000, none, none, none, none, JsNum.finite 3⟩],
          [⟨-60000, none, none, none, JsNum.finite 0⟩], some (-60000), some 10000⟩ := by
    unfold tick pruneStep rollupStep
    simp only [hb]
    norm_num [insertRawMany, tblInsertMany, tblInsert, insert1mRow, selectRawRange,
      tblSelectRange, pruneRaw, prune1m, tblPrune, rollupDue, pruneDue, compute1mRollup, avg,
      List.filterMap, List.filter, List.countP]
  rw [h2]
  refine ⟨rfl, ?_, ?_⟩
  · intro hmem
    rw [List.mem_singleton] at hmem
    have := congrArg MetricsRawRow.timeMs hmem
    norm_num at this
  · intro hmem
    cases hmem

/-- In-memory sample shape (`MetricsSample` in `src/server.ts`, minus the
derived ISO `time` string, which carries the same instant as `timeMs`). -/
structure MetricsSample where
  timeMs : ℚ
  cpuUsagePctInstant : Option JsNum
  cpuUsagePctAvg10s : Option JsNum
  cpuTempC : Option JsNum
  diskUsedPct : Option JsNum
  memUsedPct : JsNum
deriving DecidableEq, Repr

/-- `METRICS_MAX_SAMPLES = 12 * 60` (`server.ts` line 131: "12 samples/min *
60 min = 1 hour at 5s interval"). -/
def METRICS_MAX_SAMPLES : ℕ := 12 * 60

/-- The in-memory history update of `addMetricsSampleFromStatus` (`server.ts`
lines 372–375): push the sample, then if the length exceeds
`METRICS_MAX_SAMPLES` keep only the trailing `METRICS_MAX_SAMPLES` entries
(`metricsHistory.slice(metricsHistory.length - METRICS_MAX_SAMPLES)`). -/
def pushHistory (history : List MetricsSample) (s : MetricsSample) : List MetricsSample :=
  let h := history ++ [s]
  if METRICS_MAX_SAMPLES < h.length then h.drop (h.length - METRICS_MAX_SAMPLES) else h

/-- The effective sampling interval (`server.ts` line 396): the configured
`METRICS_INTERVAL_MS` when it is finite and at least 1000, else 5000. -/
def effectiveInterval (raw : JsNum) : ℚ :=
  match raw with
  | JsNum.finite q => if 1000 ≤ q then q else 5000
  | _ => 5000

theorem chain_head_bound (d : ℚ) :
    ∀ (t : List MetricsSample) (a : MetricsSample),
    List.Chain' (fun x y => x.timeMs ≤ y.timeMs ∧ y.timeMs - x.timeMs ≤ d) (a :: t) →
    ∀ x ∈ a :: t, a.timeMs ≤ x.timeMs ∧ x.timeMs - a.timeMs ≤ (t.length : ℚ) * d := by
  intro t
  induction t with
  | nil =>
      intro a _ x hx
      rw [List.mem_singleton] at hx
      subst hx
      simp
  | cons b t' ih =>
      intro a hchain x hx
      have hab : a.timeMs ≤ b.timeMs ∧ b.timeMs - a.timeMs ≤ d :=
        (List.chain'_cons.mp hchain).1
      have htail : List.Chain' _ (b :: t') := (List.chain'_cons.mp hchain).2
      have hd : 0 ≤ d := le_trans (by linarith [hab.1]) hab.2
      rw [List.mem_cons] at hx
      rcases hx with hx | hx
      · subst hx
        constructor
        · exact le_refl _
        · have : (0:ℚ) ≤ ((b :: t').length : ℚ) * d := by
            apply mul_nonneg _ hd
            exact_mod_cast Nat.zero_le _
          linarith
      · have hb := ih b htail x hx
        constructor
        · exact le_trans hab.1 hb.1
        · have hlen : ((b :: t').length : ℚ) = (t'.length : ℚ) + 1 := by
            push_cast [List.length_cons]
            ring
          rw [hlen]
          have := hb.2
          nlinarith [hab.2]

/-- C9 (amended): after every tick the in-memory history ring buffer retains
at most `METRICS_MAX_SAMPLES = 720` samples (the buffer is bounded by count,
not age); when consecutive retained samples are at most 5000 ms apart — the
default 5-second interval — no retained sample is more than one hour older
than any other (at most `719 * 5000 = 3595000 ms < 3600000 ms`). -/
theorem pushHistory_bounded (history : List MetricsSample) (s : MetricsSample)
    (hlen : history.length ≤ METRICS_MAX_SAMPLES) :
    (pushHistory history s).length ≤ METRICS_MAX_SAMPLES ∧
    (List.Chain' (fun x y => x.timeMs ≤ y.timeMs ∧ y.timeMs - x.timeMs ≤ 5000)
        (pushHistory history s) →
      ∀ x ∈ pushHistory history s, ∀ y ∈ pushHistory history s,
        x.timeMs - y.timeMs ≤ 3595000) := by
  have hlen2 : (pushHistory history s).length ≤ METRICS_MAX_SAMPLES := by
    unfold pushHistory
    by_cases h : METRICS_MAX_SAMPLES < (history ++ [s]).length
    · rw [if_pos h, List.length_drop]
      omega
    · rw [if_neg h]
      omega
  refine ⟨hlen2, ?_⟩
  intro hchain x hx y hy
  match hfe : pushHistory history s with
  | [] =>
      rw [hfe] at hx
      cases hx
  | a :: t =>
      rw [hfe] at hchain hx hy hlen2
      have hxb := chain_head_bound 5000 t a hchain x hx
      have hyb := chain_head_bound 5000 t a hchain y hy
      have htlen : t.length ≤ 719 := by
        have := hlen2
        simp only [List.length_cons, METRICS_MAX_SAMPLES] at this
        omega
      have htlenq : (t.length : ℚ) ≤ 719 := by exact_mod_cast htlen
      have h1 : x.timeMs - a.timeMs ≤ (t.length : ℚ) * 5000 := hxb.2
      have h2 : (t.length : ℚ) * 5000 ≤ 719 * 5000 := by nlinarith
      have h3 : a.timeMs ≤ y.timeMs := hyb.1
      linarith

/-- Witness for C9's amended statement: pushing one sample onto an empty
history keeps the buffer within bounds and the age spread at zero. -/
theorem pushHistory_bounded_witness :
    (pushHistory [] ⟨0, none, none, none, none, JsNum.finite 1⟩).length ≤ METRICS_MAX_SAMPLES ∧
    (⟨0, none, none, none, none, JsNum.finite 1⟩ : MetricsSample).timeMs
      - (⟨0, none, none, none, none, JsNum.finite 1⟩ : MetricsSample).timeMs ≤ 3595000 := by
  have h := pushHistory_bounded [] ⟨0, none, none, none, none, JsNum.finite 1⟩
    (by simp [METRICS_MAX_SAMPLES])
  refine ⟨h.1, ?_⟩
  exact h.2 (by simp [pushHistory, METRICS_MAX_SAMPLES])
    ⟨0, none, none, none, none, JsNum.finite 1⟩ (by simp [pushHistory, METRICS_MAX_SAMPLES])
    ⟨0, none, none, none, none, JsNum.finite 1⟩ (by simp [pushHistory, METRICS_MAX_SAMPLES])

/-- Counterexample for C9: `METRICS_INTERVAL_MS = 7200000` (two hours) is an
accepted configured sampling interval, and two consecutive ticks then produce
a retained buffer `[s0, s1]` whose older sample is two hours older than the
newest — more than one hour — so the ring buffer does not bound sample age
for every configured interval. -/
theorem metricsHistory_age_counterexample :
    effectiveInterval (JsNum.finite 7200000) = 7200000 ∧
    pushHistory (pushHistory [] ⟨0, none, none, none, none, JsNum.finite 1⟩)
        ⟨7200000, none, none, none, none, JsNum.finite 2⟩
      = [⟨0, none, none, none, none, JsNum.finite 1⟩,
         ⟨7200000, none, none, none, none, JsNum.finite 2⟩] ∧
    ¬ ((⟨7200000, none, none, none, none, JsNum.finite 2⟩ : MetricsSample).timeMs
        - (⟨0, none, none, none, none, JsNum.finite 1⟩ : MetricsSample).timeMs ≤ 3600000) := by
  refine ⟨?_, ?_, ?_⟩
  · unfold effectiveInterval
    norm_num
  · rfl
  · norm_num

/-- Rollup row → caller-facing sample (`/metrics.json`, rollup branch):
`cpuUsagePctInstant` is always absent for rollups. -/
def rollupToSample (r : Metrics1mRow) : MetricsSample :=
  { timeMs := r.bucketStartMs
    cpuUsagePctInstant := none
    cpuUsagePctAvg10s := r.cpuUsagePctAvg10s
    cpuTempC := r.cpuTempC
    diskUsedPct := r.diskUsedPct
    memUsedPct := r.memUsedPct }

/-- Raw row → caller-facing sample (`/metrics.json`, raw branch). -/
def rawToSample (r : MetricsRawRow) : MetricsSample :=
  { timeMs := r.timeMs
    cpuUsagePctInstant := r.cpuUsagePctInstant
    cpuUsagePctAvg10s := r.cpuUsagePctAvg10s
    cpuTempC := r.cpuTempC
    diskUsedPct := r.diskUsedPct
    memUsedPct := r.memUsedPct }

/-- The clamped range in hours (`server.ts` line 743): a finite
`rangeHours` value (after `Number(...)`, with the configured default as
fallback for a missing parameter) is clamped to `[0.25, 24 * 30]`; a
non-finite value falls back to the configured default. -/
def clampedHours (cfg : MetricsConfig) (rangeHoursParam : JsNum) : ℚ :=
  match rangeHoursParam with
  | JsNum.finite q => max 0.25 (min (24 * 30) q)
  | _ => cfg.defaultRangeHours

/-- Lower bound of the requested window: `fromMs = nowMs - hours * 3600_000`. -/
def fromOf (cfg : MetricsConfig) (rangeHoursParam : JsNum) (nowMs : ℚ) : ℚ :=
  nowMs - clampedHours cfg rangeHoursParam * 3600000

/-- Lower bound of the raw fetch window (`server.ts` line 751):
`rawFromMs = max(fromMs, nowMs - max(1, rawRetentionHours) * 3600_000)`. -/
def rawFromOf (cfg : MetricsConfig) (rangeHoursParam : JsNum) (nowMs : ℚ) : ℚ :=
  max (fromOf cfg rangeHoursParam nowMs) (nowMs - max 1 cfg.rawRetentionHours * 3600000)

/-- The `/metrics.json` handler (`server.ts` lines 739–786): fetch raw rows
for `[rawFrom, now]`; when `from < rawFrom` also fetch rollup rows with
`select1mRange(from, rawFrom)` (SQL `BETWEEN`, inclusive on both ends);
return the rollup samples followed by the raw samples. -/
def metricsJson (cfg : MetricsConfig) (rangeHoursParam : JsNum) (nowMs : ℚ)
    (rawTier : List MetricsRawRow) (m1Tier : List Metrics1mRow) : List MetricsSample :=
  (if fromOf cfg rangeHoursParam nowMs < rawFromOf cfg rangeHoursParam nowMs
    then select1mRange m1Tier (fromOf cfg rangeHoursParam nowMs)
      (rawFromOf cfg rangeHoursParam nowMs)
    else []).map rollupToSample
  ++ (selectRawRange rawTier (rawFromOf cfg rangeHoursParam nowMs) nowMs).map rawToSample

/-- C2 (amended): the `/metrics.json` range query returns the rollup samples
fetched from the CLOSED interval `[from, rawFrom]` (SQL `BETWEEN` is inclusive,
not half-open) followed by the raw samples fetched from `[rawFrom, now]`; the
resulting timestamps are non-decreasing, and the only timestamp that can be
duplicated across the two tiers is exactly `rawFrom`. -/
theorem metricsJson_stitching (cfg : MetricsConfig) (p : JsNum) (nowMs : ℚ)
    (rawTier : List MetricsRawRow) (m1Tier : List Metrics1mRow)
    (hraw : RawSorted rawTier) (hm1 : M1Sorted m1Tier) :
    metricsJson cfg p nowMs rawTier m1Tier
      = (if fromOf cfg p nowMs < rawFromOf cfg p nowMs
          then select1mRange m1Tier (fromOf cfg p nowMs) (rawFromOf cfg p nowMs)
          else []).map rollupToSample
        ++ (selectRawRange rawTier (rawFromOf cfg p nowMs) nowMs).map rawToSample ∧
    (∀ s ∈ (if fromOf cfg p nowMs < rawFromOf cfg p nowMs
          then select1mRange m1Tier (fromOf cfg p nowMs) (rawFromOf cfg p nowMs)
          else []).map rollupToSample,
        fromOf cfg p nowMs ≤ s.timeMs ∧ s.timeMs ≤ rawFromOf cfg p nowMs) ∧
    (∀ s ∈ (selectRawRange rawTier (rawFromOf cfg p nowMs) nowMs).map rawToSample,
        rawFromOf cfg p nowMs ≤ s.timeMs ∧ s.timeMs ≤ nowMs) ∧
    List.Pairwise (fun a b : MetricsSample => a.timeMs < b.timeMs ∨
        (a.timeMs = rawFromOf cfg p nowMs ∧ b.timeMs = rawFromOf cfg p nowMs))
      (metricsJson cfg p nowMs rawTier m1Tier) := by
  have h2 : ∀ s ∈ (if fromOf cfg p nowMs < rawFromOf cfg p nowMs
      then select1mRange m1Tier (fromOf cfg p nowMs) (rawFromOf cfg p nowMs)
      else []).map rollupToSample,
      fromOf cfg p nowMs ≤ s.timeMs ∧ s.timeMs ≤ rawFromOf cfg p nowMs := by
    intro s hs
    rw [List.mem_map] at hs
    obtain ⟨r, hr, hrs⟩ := hs
    by_cases hc : fromOf cfg p nowMs < rawFromOf cfg p nowMs
    · rw [if_pos hc] at hr
      have hb := (mem_tblSelectRange Metrics1mRow.bucketStartMs).mp hr
      subst hrs
      exact ⟨hb.2.1, hb.2.2⟩
    · rw [if_neg hc] at hr
      cases hr
  have h3 : ∀ s ∈ (selectRawRange rawTier (rawFromOf cfg p nowMs) nowMs).map rawToSample,
      rawFromOf cfg p nowMs ≤ s.timeMs ∧ s.timeMs ≤ nowMs := by
    intro s hs
    rw [List.mem_map] at hs
    obtain ⟨r, hr, hrs⟩ := hs
    have hb := (mem_tblSelectRange MetricsRawRow.timeMs).mp hr
    subst hrs
    exact ⟨hb.2.1, hb.2.2⟩
  refine ⟨rfl, h2, h3, ?_⟩
  show List.Pairwise _
    ((if fromOf cfg p nowMs < rawFromOf cfg p nowMs
        then select1mRange m1Tier (fromOf cfg p nowMs) (rawFromOf cfg p nowMs)
        else []).map rollupToSample
      ++ (selectRawRange rawTier (rawFromOf cfg p nowMs) nowMs).map rawToSample)
  rw [List.pairwise_append]
  refine ⟨?_, ?_, ?_⟩
  · have hsorted : M1Sorted (if fromOf cfg p nowMs < rawFromOf cfg p nowMs
        then select1mRange m1Tier (fromOf cfg p nowMs) (rawFromOf cfg p nowMs)
        else []) := by
      by_cases hc : fromOf cfg p nowMs < rawFromOf cfg p nowMs
      · rw [if_pos hc]
        exact tblSelectRange_sorted Metrics1mRow.bucketStartMs hm1 _ _
      · rw [if_neg hc]
        exact List.Pairwise.nil
    rw [List.pairwise_map]
    exact hsorted.imp (fun hab => Or.inl hab)
  · have hsorted : RawSorted (selectRawRange rawTier (rawFromOf cfg p nowMs) nowMs) :=
      tblSelectRange_sorted MetricsRawRow.timeMs hraw _ _
    rw [List.pairwise_map]
    exact hsorted.imp (fun hab => Or.inl hab)
  · intro a ha b hb
    have hab := (h2 a ha).2
    have hbb := (h3 b hb).1
    rcases lt_or_le a.timeMs b.timeMs with hlt | hle
    · exact Or.inl hlt
    · have h1 : a.timeMs = rawFromOf cfg p nowMs := le_antisymm hab (le_trans hbb hle)
      have h4 : b.timeMs = rawFromOf cfg p nowMs :=
        le_antisymm (le_trans hle hab) hbb
      exact Or.inr ⟨h1, h4⟩

/-- Witness for C2's amended statement at a concrete input: retention 24 h,
range 48 h, `now` at 48 h — one rollup row in the historical tail and one raw
row in the recent window stitch into a sequence satisfying the tier-boundary
ordering property. -/
theorem metricsJson_stitching_witness :
    List.Pairwise (fun a b : MetricsSample => a.timeMs < b.timeMs ∨
        (a.timeMs = rawFromOf ⟨24, 30, 6⟩ (JsNum.finite 48) 172800000 ∧
         b.timeMs = rawFromOf ⟨24, 30, 6⟩ (JsNum.finite 48) 172800000))
      (metricsJson ⟨24, 30, 6⟩ (JsNum.finite 48) 172800000
        [⟨100000000, none, none, none, none, JsNum.finite 1⟩]
        [⟨60000000, none, none, none, JsNum.finite 2⟩]) :=
  (metricsJson_stitching ⟨24, 30, 6⟩ (JsNum.finite 48) 172800000
    [⟨100000000, none, none, none, none, JsNum.finite 1⟩]
    [⟨60000000, none, none, none, JsNum.finite 2⟩]
    (List.pairwise_singleton _ _) (List.pairwise_singleton _ _)).2.2.2

/-- Counterexample for C2 as stated: with raw retention 24 h, a 48 h range
query at `now = 172800000` has `rawFrom = 86400000`; a rollup row whose bucket
starts exactly at `rawFrom` and a raw row at exactly `rawFrom` BOTH appear in
the response (the rollup fetch interval is closed, not half-open), so the
returned sequence carries a duplicate timestamp across the two tiers and is
not strictly ascending. -/
theorem metricsJson_boundary_counterexample :
    (metricsJson ⟨24, 30, 6⟩ (JsNum.finite 48) 172800000
        [⟨86400000, none, none, none, none, JsNum.finite 1⟩]
        [⟨86400000, none, none, none, JsNum.finite 2⟩]).map (fun s => s.timeMs)
      = [86400000, 86400000] ∧
    ¬ List.Pairwise (fun a b : MetricsSample => a.timeMs < b.timeMs)
        (metricsJson ⟨24, 30, 6⟩ (JsNum.finite 48) 172800000
          [⟨86400000, none, none, none, none, JsNum.finite 1⟩]
          [⟨86400000, none, none, none, JsNum.finite 2⟩]) := by
  have hf : fromOf ⟨24, 30, 6⟩ (JsNum.finite 48) 172800000 = 0 := by
    unfold fromOf clampedHours
    norm_num [max_def, min_def]
  have hrf : rawFromOf ⟨24, 30, 6⟩ (JsNum.finite 48) 172800000 = 86400000 := by
    unfold rawFromOf
    rw [hf]
    norm_num [max_def]
  have hout : metricsJson ⟨24, 30, 6⟩ (JsNum.finite 48) 172800000
      [⟨86400000, none, none, none, none, JsNum.finite 1⟩]
      [⟨86400000, none, none, none, JsNum.finite 2⟩]
      = [⟨86400000, none, none, none, none, JsNum.finite 2⟩,
         ⟨86400000, none, none, none, none, JsNum.finite 1⟩] := by
    unfold metricsJson
    rw [hf, hrf, if_pos (by norm_num)]
    norm_num [select1mRange, selectRawRange, tblSelectRange, List.filter_cons,
      rollupToSample, rawToSample]
  constructor
  · rw [hout]
    rfl
  · rw [hout]
    intro hp
    have h := (List.pairwise_cons.mp hp).1 _ (List.mem_singleton_self _)
    exact absurd h (lt_irrefl _)
